import Mathlib

/-!
Verification of the intent-routing and confidence-decision core of the
`private-assistant-commons` library.

The Python sources are shallowly embedded as follows:

* timestamps (`datetime.now().timestamp()`) are modelled as integers (`ℤ`);
  the code only ever compares timestamps and subtracts window lengths, so any
  linearly ordered additive model is faithful, and `ℤ` keeps everything
  decidable;
* confidence values and thresholds (Python floats in `[0,1]`) are modelled as
  rationals (`ℚ`): the code only compares them and takes minima;
* Python dicts used as finite maps (`supported_intents`,
  `confidence_modifiers`) are modelled as functions into `Option`/`List`,
  mirroring `d[k]`, `k in d` and `d.get(k, [])`;
* entity payloads (`Any` normalized values) are modelled as opaque strings:
  no claim inspects their structure, only that they are copied verbatim;
* mutation is modelled by explicit state passing: every method that mutates
  `SkillContext` returns the updated context next to its result.
-/

/-- Opaque payload for Python `Any` normalized entity values. -/
abbrev Val := String

/-- `IntentType` enum from `intent/models.py`. -/
inductive IntentType where
  | DEVICE_ON
  | DEVICE_OFF
  | DEVICE_SET
  | DEVICE_OPEN
  | DEVICE_CLOSE
  | MEDIA_PLAY
  | MEDIA_STOP
  | MEDIA_NEXT
  | MEDIA_VOLUME_UP
  | MEDIA_VOLUME_DOWN
  | MEDIA_VOLUME_SET
  | QUERY_STATUS
  | QUERY_LIST
  | QUERY_TIME
  | SCENE_APPLY
  | SCHEDULE_SET
  | SCHEDULE_CANCEL
  | SYSTEM_HELP
  | SYSTEM_REFRESH
deriving DecidableEq, Repr

/-- The `.value` string of each `IntentType` enum member. -/
def IntentType.value : IntentType → String
  | .DEVICE_ON => "device.on"
  | .DEVICE_OFF => "device.off"
  | .DEVICE_SET => "device.set"
  | .DEVICE_OPEN => "device.open"
  | .DEVICE_CLOSE => "device.close"
  | .MEDIA_PLAY => "media.play"
  | .MEDIA_STOP => "media.stop"
  | .MEDIA_NEXT => "media.next"
  | .MEDIA_VOLUME_UP => "media.volume_up"
  | .MEDIA_VOLUME_DOWN => "media.volume_down"
  | .MEDIA_VOLUME_SET => "media.volume_set"
  | .QUERY_STATUS => "query.status"
  | .QUERY_LIST => "query.list"
  | .QUERY_TIME => "query.time"
  | .SCENE_APPLY => "scene.apply"
  | .SCHEDULE_SET => "schedule.set"
  | .SCHEDULE_CANCEL => "schedule.cancel"
  | .SYSTEM_HELP => "system.help"
  | .SYSTEM_REFRESH => "system.refresh"

/-- `EntityType` enum from `intent/models.py`. -/
inductive EntityType where
  | DEVICE
  | ROOM
  | NUMBER
  | DURATION
  | TIME
  | MEDIA_ID
  | SCENE
  | MODIFIER
deriving DecidableEq, Repr

/-- `Entity` model from `intent/models.py` (uuid field dropped, metadata and
entity links are opaque to every claim and omitted). -/
structure Entity where
  type : EntityType
  raw_text : String
  normalized_value : Val
  confidence : ℚ := 1
deriving DecidableEq, Repr

/-- `ClientRequest` model from `intent/models.py`; the uuid is kept as a
number. -/
structure ClientRequest where
  id : ℕ
  text : String
  room : String
  output_topic : String
deriving DecidableEq, Repr

/-- `ClassifiedIntent` model from `intent/models.py`; `entities` is the dict
`role name -> list of entities`, kept in insertion order. -/
structure ClassifiedIntent where
  intent_type : IntentType
  confidence : ℚ
  entities : List (String × List Entity)
  raw_text : String
  timestamp : ℤ
deriving DecidableEq, Repr

/-- `IntentRequest` model from `intent/models.py`. -/
structure IntentRequest where
  id : ℕ
  classified_intent : ClassifiedIntent
  client_request : ClientRequest
deriving DecidableEq, Repr

/-- `Alert` model from `messages.py`. -/
structure Alert where
  play_before : Bool := false
  play_after : Bool := false
  sound : String := "default"
deriving DecidableEq, Repr

/-- `RecentAction` model from `skill_context.py`; `entities` is the dict
`role name -> flattened values`. -/
structure RecentAction where
  action : String
  executed_at : ℤ
  entities : List (String × List Val) := []
deriving DecidableEq, Repr

/-- `ConfidenceModifier` model from `skill_context.py`. -/
structure ConfidenceModifier where
  trigger_intent : IntentType
  lowers_threshold_for : IntentType
  reduced_threshold : ℚ
  time_window_seconds : ℤ := 300
deriving DecidableEq, Repr

/-- `SkillContext` model from `skill_context.py`. -/
structure SkillContext where
  skill_name : String
  recent_actions : List RecentAction := []
  command_count_since_last : ℕ := 0
  max_recent_actions : ℕ := 10
  recency_window_seconds : ℤ := 300
  max_follow_up_commands : ℕ := 5
deriving DecidableEq, Repr

/-- Python list slice `l[-n:]`: the last `n` elements for `n ≥ 1`, but the
WHOLE list when `n = 0` (since `-0 == 0` and `l[0:]` is `l`). -/
def pySliceLast (n : ℕ) (l : List α) : List α :=
  if n = 0 then l else l.drop (l.length - n)

/-- `SkillContext._cleanup_expired_actions`, with `datetime.now()` passed in
explicitly as `now`. -/
def SkillContext.cleanup_expired_actions (ctx : SkillContext) (now : ℤ) : SkillContext :=
  if ctx.recent_actions.isEmpty then ctx
  else
    { ctx with
      recent_actions :=
        ctx.recent_actions.filter fun a =>
          now - ctx.recency_window_seconds < a.executed_at }

/-- `SkillContext.find_recent_action`: prunes expired actions (side effect,
returned as the first component), then scans newest-to-oldest for the first
action whose name matches and whose timestamp is strictly after
`now - time_window`. -/
def SkillContext.find_recent_action (ctx : SkillContext) (now : ℤ) (action : String)
    (within_seconds : Option ℤ := none) : SkillContext × Option RecentAction :=
  let ctx' := ctx.cleanup_expired_actions now
  if ctx'.recent_actions.isEmpty then (ctx', none)
  else
    let time_window := within_seconds.getD ctx'.recency_window_seconds
    let cutoff_time := now - time_window
    (ctx',
      ctx'.recent_actions.reverse.find? fun a =>
        a.action == action && decide (cutoff_time < a.executed_at))

/-- `SkillContext.has_recent_intent` (string overload folded in: callers pass
`intent_type.value`). -/
def SkillContext.has_recent_intent (ctx : SkillContext) (now : ℤ) (intent_str : String) :
    SkillContext × Bool :=
  let r := ctx.find_recent_action now intent_str
  (r.1, r.2.isSome)

/-- `SkillContext.has_recent_activity`. -/
def SkillContext.has_recent_activity (ctx : SkillContext) (now : ℤ) : SkillContext × Bool :=
  let ctx' := ctx.cleanup_expired_actions now
  (ctx', decide (0 < ctx'.recent_actions.length))

/-- `SkillContext.add_action`: append, then trim with the Python slice
`recent_actions[-max_recent_actions:]` if the length exceeds the bound. -/
def SkillContext.add_action (ctx : SkillContext) (now : ℤ) (action : String)
    (entities : List (String × List Val) := []) : SkillContext :=
  let appended := ctx.recent_actions ++ [⟨action, now, entities⟩]
  { ctx with
    recent_actions :=
      if ctx.max_recent_actions < appended.length then
        pySliceLast ctx.max_recent_actions appended
      else appended }

/-- `SkillContext.get_last_action` (no mutation). -/
def SkillContext.get_last_action (ctx : SkillContext) : Option RecentAction :=
  ctx.recent_actions.getLast?

/-- `SkillContext.get_recent_entities` (no mutation). -/
def SkillContext.get_recent_entities (ctx : SkillContext) (entity_type : Option String) :
    List (String × List Val) :=
  match ctx.recent_actions.getLast? with
  | none => []
  | some last =>
    match entity_type with
    | some t =>
      match ctx.recent_actions.reverse.find? (fun a => (a.entities.lookup t).isSome) with
      | some a =>
        match a.entities.lookup t with
        | some v => [(t, v)]
        | none => []
      | none => []
    | none => last.entities

/-! ## Confidence decision engine (`base_skill.py`) -/

/-- The intent-handling configuration and mutable context of a `BaseSkill`:
`supported_intents` is the dict `intent -> min confidence threshold`
(membership test and subscript are modelled by `Option`), and
`confidence_modifiers` is the dict `target intent -> list of modifiers`
(`.get(intent_type, [])` is modelled by returning `[]`). -/
structure SkillState where
  supported_intents : IntentType → Option ℚ
  confidence_modifiers : IntentType → List ConfidenceModifier
  skill_context : SkillContext

/-- The modifier loop inside `BaseSkill._should_handle_intent`: for each
modifier registered under the request's intent type, look up a recent action
of the trigger intent (which prunes the context as a side effect) and lower
the effective threshold to `min` with the modifier's reduced threshold when
one is found. Returns the final effective threshold and the threaded
context. -/
def modifierLoop (now : ℤ) : SkillContext → ℚ → List ConfidenceModifier → ℚ × SkillContext
  | ctx, eff, [] => (eff, ctx)
  | ctx, eff, m :: rest =>
    let r := ctx.find_recent_action now m.trigger_intent.value (some m.time_window_seconds)
    match r.2 with
    | some _ => modifierLoop now r.1 (min eff m.reduced_threshold) rest
    | none => modifierLoop now r.1 eff rest

/-- `BaseSkill._should_handle_intent`: step 1 rejects unsupported intent types
with `(False, 0.0)`; step 2 resolves the per-intent threshold, applies the
modifier loop, and accepts iff the confidence is not below the effective
threshold. The (possibly pruned) context is returned as well. -/
def should_handle_intent (skill : SkillState) (now : ℤ) (intent_request : IntentRequest) :
    Bool × ℚ × SkillContext :=
  let classified_intent := intent_request.classified_intent
  match skill.supported_intents classified_intent.intent_type with
  | none => (false, 0, skill.skill_context)
  | some required_confidence =>
    let r :=
      modifierLoop now skill.skill_context required_confidence
        (skill.confidence_modifiers classified_intent.intent_type)
    if classified_intent.confidence < r.1 then
      (false, r.1, r.2)
    else
      (true, r.1, r.2)

/-- The entity flattening performed by `handle_client_request_message` when it
records an accepted intent:
`{k: [e.normalized_value for e in v] for k, v in entities.items()}`. -/
def flattenEntities (entities : List (String × List Entity)) : List (String × List Val) :=
  entities.map fun p => (p.1, p.2.map Entity.normalized_value)

/-- `BaseSkill.handle_client_request_message`, for an already-parsed request
(the `ValidationError` branch records nothing and is outside every claim).
`process_succeeds` abstracts whether the skill's `process_request` returns or
raises; on a raise the surrounding `except` swallows the exception before the
`add_action` line is reached. Returns the final context and whether the
request was accepted and processed to completion. -/
def handle_client_request_message (skill : SkillState) (now : ℤ)
    (intent_request : IntentRequest) (process_succeeds : Bool) : SkillContext × Bool :=
  let classified_intent := intent_request.classified_intent
  let d := should_handle_intent skill now intent_request
  if d.1 then
    if process_succeeds then
      (d.2.2.add_action now classified_intent.intent_type.value
        (flattenEntities classified_intent.entities), true)
    else (d.2.2, false)
  else (d.2.2, false)

/-! ## Reliable publisher (`base_skill.py`, `_send_response_with_retry`) -/

/-- Outcome of one `mqtt_client.publish` attempt, as discriminated by the
`try/except` ladder in `_send_response_with_retry`. -/
inductive PubOutcome where
  | success
  | timeout
  | mqttError
  | otherError
  | cancelled
deriving DecidableEq, Repr

/-- Result of `_send_response_with_retry`: an ordinary boolean return, or the
re-raised `asyncio.CancelledError`. -/
inductive RetryResult where
  | ok (b : Bool)
  | raised
deriving DecidableEq, Repr

/-- Observable trace of one `_send_response_with_retry` call: number of
publish attempts made, the backoff sleeps performed between them, the final
result, and the `record_mqtt_event("publish", success=·)` metric events. -/
structure RetryTrace where
  attempts : ℕ
  sleeps : List ℕ
  result : RetryResult
  events : List Bool
deriving DecidableEq, Repr

/-- `min(2**attempt, 10)`: exponential backoff capped at 10 seconds. -/
def backoffDelay (attempt : ℕ) : ℕ := min (2 ^ attempt) 10

/-- The `for attempt in range(max_retries + 1)` loop of
`_send_response_with_retry`, over the remaining attempt indices. A success
returns `True` immediately (with a success metric); a cancellation re-raises
(no metric); a retryable failure sleeps `backoffDelay attempt` when further
attempts remain and continues; loop exhaustion records a failure metric and
returns `False`. -/
def retryLoop (outcomes : ℕ → PubOutcome) (max_retries : ℕ) : List ℕ → RetryTrace
  | [] => ⟨0, [], .ok false, [false]⟩
  | attempt :: rest =>
    match outcomes attempt with
    | .success => ⟨1, [], .ok true, [true]⟩
    | .cancelled => ⟨1, [], .raised, []⟩
    | _ =>
      let t := retryLoop outcomes max_retries rest
      ⟨t.attempts + 1,
        (if attempt < max_retries then [backoffDelay attempt] else []) ++ t.sleeps,
        t.result, t.events⟩

/-- `BaseSkill._send_response_with_retry` with the publish attempts abstracted
as `outcomes : attempt index → PubOutcome`. -/
def send_response_with_retry (outcomes : ℕ → PubOutcome) (max_retries : ℕ := 3) : RetryTrace :=
  retryLoop outcomes max_retries (List.range (max_retries + 1))

/-- A retryable publish failure: caught by one of the three non-cancellation
`except` clauses. -/
def retryable (o : PubOutcome) : Prop :=
  o = .timeout ∨ o = .mqttError ∨ o = .otherError

instance : DecidablePred retryable := fun o => by unfold retryable; infer_instance

/-! ## publish_with_alert (`base_skill.py`) -/

/-- Where `publish_with_alert` routed the response. -/
inductive PublishRoute where
  | broadcast (response_text : String) (alert : Alert)
  | direct (response_text : String) (client_request : ClientRequest) (alert : Alert)
deriving DecidableEq, Repr

/-- `BaseSkill.publish_with_alert`: substitute the skill's `default_alert`
when `alert` is `None`, then broadcast, or send to the client's topic, or
raise `ValueError` when neither routing is possible. -/
def publish_with_alert (default_alert : Alert) (response_text : String)
    (client_request : Option ClientRequest := none) (broadcast : Bool := false)
    (alert : Option Alert := none) : Except String PublishRoute :=
  let alert := alert.getD default_alert
  if broadcast then .ok (.broadcast response_text alert)
  else
    match client_request with
    | some cr => .ok (.direct response_text cr alert)
    | none => .error "client_request must be provided if broadcast is False."

/-! ## Task lifecycle manager (`base_skill.py`, `add_task` / `_task_completed`) -/

/-- The task-lifecycle state of a `BaseSkill`: the active-task registry
(`_active_tasks`, keyed by the numeric id; only the keys matter to the
claims), the monotonically increasing `_task_counter`, and the counters
behind `record_task_event`. -/
structure TaskRegistry where
  active_tasks : List ℕ := []
  task_counter : ℕ := 0
  tasks_created : ℕ := 0
  tasks_completed : ℕ := 0
  tasks_failed : ℕ := 0
deriving DecidableEq, Repr

/-- `BaseSkill.add_task`: register the task under the current counter value,
record a `"created"` metric event, and increment the counter. -/
def TaskRegistry.add_task (s : TaskRegistry) : TaskRegistry :=
  { s with
    active_tasks := s.active_tasks ++ [s.task_counter]
    task_counter := s.task_counter + 1
    tasks_created := s.tasks_created + 1 }

/-- How an `asyncio.Task` can finish, as observed by the done callback:
clean return, raised exception, or cancellation. -/
inductive TaskOutcome where
  | success
  | failed
  | cancelled
deriving DecidableEq, Repr

/-- `BaseSkill._task_completed`: pop the registry entry first (a missing id
is a no-op, mirroring `dict.pop(task_id, None)`); then `task.exception()` is
called. For a CANCELLED task `task.exception()` itself raises
`CancelledError`, which escapes the callback before either
`record_task_event` call — so the entry is removed but NO metrics event is
recorded. Otherwise exactly one `"failed"` or `"completed"` event is
recorded depending on whether the task ended with an exception. -/
def TaskRegistry.task_completed (s : TaskRegistry) (task_id : ℕ) (outcome : TaskOutcome) :
    TaskRegistry :=
  if task_id ∈ s.active_tasks then
    let s' := { s with active_tasks := s.active_tasks.erase task_id }
    match outcome with
    | .cancelled => s'
    | .failed => { s' with tasks_failed := s'.tasks_failed + 1 }
    | .success => { s' with tasks_completed := s'.tasks_completed + 1 }
  else s

/-- `BaseSkill.get_active_task_count`. -/
def TaskRegistry.get_active_task_count (s : TaskRegistry) : ℕ := s.active_tasks.length

/-- Spawn `n` tasks in a row via `add_task`. -/
def spawnTasks : ℕ → TaskRegistry → TaskRegistry
  | 0, s => s
  | n + 1, s => spawnTasks n s.add_task

/-- Settle a batch of finished tasks: each pair is a task id together with
how that task finished. -/
def settleTasks (comps : List (ℕ × TaskOutcome)) (s : TaskRegistry) : TaskRegistry :=
  comps.foldl (fun s c => s.task_completed c.1 c.2) s

/-! ## Bounded cache -/

/-- Modelled from the spec: the bounded, LRU-evicting cache component is not
part of the sources under `src/` (only this spec section describes it), so it
is embedded from the spec's words: a fixed-capacity associative container
whose entries are kept in recency order (least-recently-used first), with
`set` refreshing the recency and value of an existing key, and evicting the
single least-recently-used entry when a new key arrives at capacity. Keys
(`IntentRequest.id`) and values are opaque numbers. -/
structure BoundedCache where
  capacity : ℕ
  entries : List (ℕ × ℕ) := []
deriving DecidableEq, Repr

/-- Modelled from the spec: `set(key, value)` — if the key exists, move it to
the most-recently-used end with the new value; else, if at capacity, evict
the least-recently-used entry (the front), then insert at the
most-recently-used end. -/
def BoundedCache.set (c : BoundedCache) (key value : ℕ) : BoundedCache :=
  if key ∈ c.entries.map Prod.fst then
    { c with entries := (c.entries.filter fun p => p.1 ≠ key) ++ [(key, value)] }
  else if c.entries.length = c.capacity then
    { c with entries := c.entries.tail ++ [(key, value)] }
  else
    { c with entries := c.entries ++ [(key, value)] }

/-- The keys of a cache in recency order. -/
def BoundedCache.keys (c : BoundedCache) : List ℕ := c.entries.map Prod.fst

/-- Insert a list of key/value pairs in order. -/
def BoundedCache.setAll (c : BoundedCache) (kvs : List (ℕ × ℕ)) : BoundedCache :=
  kvs.foldl (fun c kv => c.set kv.1 kv.2) c

/-! ## Lemmas about `SkillContext` -/

theorem SkillContext.cleanup_eq_filter (ctx : SkillContext) (now : ℤ) :
    ctx.cleanup_expired_actions now =
      { ctx with
        recent_actions :=
          ctx.recent_actions.filter fun a =>
            now - ctx.recency_window_seconds < a.executed_at } := by
  unfold SkillContext.cleanup_expired_actions
  by_cases h : ctx.recent_actions.isEmpty
  · rw [List.isEmpty_iff] at h
    cases ctx
    simp_all
  · simp [h]

theorem SkillContext.cleanup_recency_window (ctx : SkillContext) (now : ℤ) :
    (ctx.cleanup_expired_actions now).recency_window_seconds = ctx.recency_window_seconds := by
  rw [SkillContext.cleanup_eq_filter]

theorem SkillContext.cleanup_idem (ctx : SkillContext) (now : ℤ) :
    (ctx.cleanup_expired_actions now).cleanup_expired_actions now =
      ctx.cleanup_expired_actions now := by
  simp [SkillContext.cleanup_eq_filter, List.filter_filter]

theorem SkillContext.cleanup_sublist (ctx : SkillContext) (now : ℤ) :
    (ctx.cleanup_expired_actions now).recent_actions.Sublist ctx.recent_actions := by
  rw [SkillContext.cleanup_eq_filter]
  exact List.filter_sublist ctx.recent_actions

theorem SkillContext.find_recent_action_eq (ctx : SkillContext) (now : ℤ) (action : String)
    (w : Option ℤ) :
    ctx.find_recent_action now action w =
      (ctx.cleanup_expired_actions now,
        (ctx.cleanup_expired_actions now).recent_actions.reverse.find? fun a =>
          a.action == action &&
            decide (now - w.getD ctx.recency_window_seconds < a.executed_at)) := by
  unfold SkillContext.find_recent_action
  by_cases h : (ctx.cleanup_expired_actions now).recent_actions.isEmpty
  · rw [List.isEmpty_iff] at h
    simp [h]
  · simp [h, SkillContext.cleanup_recency_window]

theorem SkillContext.find_recent_action_cleanup (ctx : SkillContext) (now : ℤ) (action : String)
    (w : Option ℤ) :
    (ctx.cleanup_expired_actions now).find_recent_action now action w =
      ctx.find_recent_action now action w := by
  rw [SkillContext.find_recent_action_eq, SkillContext.find_recent_action_eq,
    SkillContext.cleanup_idem, SkillContext.cleanup_recency_window]

/-- `find?` returns the head of the filtered list. -/
theorem find?_eq_head?_filter (p : α → Bool) (l : List α) : l.find? p = (l.filter p).head? := by
  induction l with
  | nil => rfl
  | cons x l ih =>
    by_cases h : p x
    · rw [List.find?_cons_of_pos _ h, List.filter_cons_of_pos h]
      rfl
    · rw [List.find?_cons_of_neg _ h, List.filter_cons_of_neg h, ih]

/-- `find?` over a reversed list returns the last match in list order. -/
theorem find?_reverse_eq_getLast?_filter (p : α → Bool) (l : List α) :
    l.reverse.find? p = (l.filter p).getLast? := by
  rw [find?_eq_head?_filter, List.filter_reverse, List.head?_reverse]

/-! ## Lemmas about the modifier loop -/

/-- A modifier applies when a recent action of its trigger intent lies within
its time window (the boolean the code branches on). -/
def modifierApplies (ctx : SkillContext) (now : ℤ) (m : ConfidenceModifier) : Bool :=
  ((ctx.find_recent_action now m.trigger_intent.value (some m.time_window_seconds)).2).isSome

theorem modifierApplies_cleanup (ctx : SkillContext) (now : ℤ) (m : ConfidenceModifier) :
    modifierApplies (ctx.cleanup_expired_actions now) now m = modifierApplies ctx now m := by
  unfold modifierApplies
  rw [SkillContext.find_recent_action_cleanup]

theorem modifierLoop_fst (now : ℤ) (ms : List ConfidenceModifier) :
    ∀ (ctx : SkillContext) (eff : ℚ),
      (modifierLoop now ctx eff ms).1 =
        ms.foldl
          (fun e m => if modifierApplies ctx now m then min e m.reduced_threshold else e) eff := by
  induction ms with
  | nil => intro ctx eff; rfl
  | cons m rest ih =>
    intro ctx eff
    have happ : modifierApplies ctx now m =
        ((ctx.find_recent_action now m.trigger_intent.value (some m.time_window_seconds)).2).isSome :=
      rfl
    have hfst : (ctx.find_recent_action now m.trigger_intent.value (some m.time_window_seconds)).1 =
        ctx.cleanup_expired_actions now := by
      rw [SkillContext.find_recent_action_eq]
    have hfun : (fun (e : ℚ) m =>
          if modifierApplies (ctx.cleanup_expired_actions now) now m then
            min e m.reduced_threshold else e) =
        (fun (e : ℚ) m => if modifierApplies ctx now m then min e m.reduced_threshold else e) := by
      funext e m'
      rw [modifierApplies_cleanup]
    cases hra : (ctx.find_recent_action now m.trigger_intent.value (some m.time_window_seconds)).2 with
    | some a =>
      have happT : modifierApplies ctx now m = true := by rw [happ, hra]; rfl
      simp [modifierLoop, hra, hfst, ih, hfun, happT]
    | none =>
      have happF : modifierApplies ctx now m = false := by rw [happ, hra]; rfl
      simp [modifierLoop, hra, hfst, ih, hfun, happF]

/-- Conditional folds are folds over the filtered list. -/
theorem foldl_if_filter (p : α → Bool) (g : β → α → β) :
    ∀ (l : List α) (b : β),
      l.foldl (fun e m => if p m then g e m else e) b = (l.filter p).foldl g b := by
  intro l
  induction l with
  | nil => intro b; rfl
  | cons x l ih =>
    intro b
    by_cases h : p x <;> simp [h, ih]

theorem modifierLoop_fst_filter (now : ℤ) (ms : List ConfidenceModifier) (ctx : SkillContext)
    (eff : ℚ) :
    (modifierLoop now ctx eff ms).1 =
      (((ms.filter (modifierApplies ctx now)).map ConfidenceModifier.reduced_threshold).foldl
        min eff) := by
  rw [modifierLoop_fst, foldl_if_filter, List.foldl_map]

theorem foldl_min_le (l : List ℚ) : ∀ a : ℚ, l.foldl min a ≤ a := by
  induction l with
  | nil => intro a; exact le_refl a
  | cons x l ih =>
    intro a
    calc (x :: l).foldl min a = l.foldl min (min a x) := rfl
    _ ≤ min a x := ih (min a x)
    _ ≤ a := min_le_left a x

/-- Characterization of `_should_handle_intent` on a supported intent type:
the boolean is the confidence check against the modifier loop's threshold. -/
theorem should_handle_intent_supported (skill : SkillState) (now : ℤ) (req : IntentRequest)
    (t : ℚ) (hsup : skill.supported_intents req.classified_intent.intent_type = some t) :
    should_handle_intent skill now req =
      (decide ((modifierLoop now skill.skill_context t
          (skill.confidence_modifiers req.classified_intent.intent_type)).1 ≤
          req.classified_intent.confidence),
        (modifierLoop now skill.skill_context t
          (skill.confidence_modifiers req.classified_intent.intent_type)).1,
        (modifierLoop now skill.skill_context t
          (skill.confidence_modifiers req.classified_intent.intent_type)).2) := by
  simp only [should_handle_intent]
  rw [hsup]
  by_cases hc : req.classified_intent.confidence <
      (modifierLoop now skill.skill_context t
        (skill.confidence_modifiers req.classified_intent.intent_type)).1
  · simp [hc, not_le.mpr hc]
  · simp [hc, not_lt.mp hc]

/-! ## Concrete inputs used by the witnesses -/

def sampleClientRequest : ClientRequest :=
  ⟨1, "turn off the lights", "kitchen", "assistant/output/1"⟩

/-- A `DEVICE_OFF` request with confidence exactly `1/2`. -/
def sampleRequestOff : IntentRequest :=
  ⟨7, ⟨.DEVICE_OFF, 1/2, [], "turn them off", 999⟩, sampleClientRequest⟩

/-- A skill that supports nothing, but has modifiers registered and a
non-empty context. -/
def sampleSkillNone : SkillState :=
  { supported_intents := fun _ => none
    confidence_modifiers := fun _ => [⟨.DEVICE_ON, .DEVICE_OFF, 3/10, 300⟩]
    skill_context := ⟨"sample-skill", [⟨"device.on", 900, []⟩], 0, 10, 300, 5⟩ }

/-- A skill supporting `DEVICE_OFF` at threshold `1/2`, with a registered
modifier whose trigger action is long expired at `now = 1000`. -/
def sampleSkillBasic : SkillState :=
  { supported_intents := fun it => if it = IntentType.DEVICE_OFF then some (1/2) else none
    confidence_modifiers := fun it =>
      if it = IntentType.DEVICE_OFF then [⟨.DEVICE_ON, .DEVICE_OFF, 3/10, 300⟩] else []
    skill_context := ⟨"sample-skill", [⟨"device.on", 100, []⟩], 0, 10, 300, 5⟩ }

/-- A skill supporting `DEVICE_OFF` at threshold `4/5`, with a modifier whose
trigger action is recent at `now = 1000`, lowering the bar to `3/10`. -/
def sampleSkillModified : SkillState :=
  { supported_intents := fun it => if it = IntentType.DEVICE_OFF then some (4/5) else none
    confidence_modifiers := fun it =>
      if it = IntentType.DEVICE_OFF then [⟨.DEVICE_ON, .DEVICE_OFF, 3/10, 300⟩] else []
    skill_context := ⟨"sample-skill", [⟨"device.on", 995, []⟩], 0, 10, 300, 5⟩ }

/-! ## Claim C1 -/

/-- C1: whenever the request's intent type is not a key of
`supported_intents`, `_should_handle_intent` returns `(False, 0.0)` and
leaves the skill context untouched, regardless of the request's confidence
and of any registered modifiers or context state. -/
theorem unsupported_intent_rejected_with_zero (skill : SkillState) (now : ℤ)
    (req : IntentRequest)
    (h : skill.supported_intents req.classified_intent.intent_type = none) :
    should_handle_intent skill now req = (false, 0, skill.skill_context) := by
  simp only [should_handle_intent]
  rw [h]

/-- Witness for C1 at a concrete skill (with a registered modifier and a
non-empty context) and a concrete request. -/
theorem unsupported_intent_rejected_with_zero_witness :
    sampleSkillNone.supported_intents sampleRequestOff.classified_intent.intent_type = none ∧
    should_handle_intent sampleSkillNone 1000 sampleRequestOff =
      (false, 0, sampleSkillNone.skill_context) :=
  ⟨rfl, unsupported_intent_rejected_with_zero sampleSkillNone 1000 sampleRequestOff rfl⟩

/-! ## Claim C2 -/

/-- C2: for a supported intent type with threshold `t`, when no registered
modifier applies, `_should_handle_intent` uses `t` itself as the effective
threshold and accepts exactly when the confidence is at least `t` (the
boundary `confidence = t` is accepted). -/
theorem no_applicable_modifier_accept_iff (skill : SkillState) (now : ℤ) (req : IntentRequest)
    (t : ℚ) (hsup : skill.supported_intents req.classified_intent.intent_type = some t)
    (hmods : ∀ m ∈ skill.confidence_modifiers req.classified_intent.intent_type,
      modifierApplies skill.skill_context now m = false) :
    (should_handle_intent skill now req).2.1 = t ∧
      ((should_handle_intent skill now req).1 = true ↔
        t ≤ req.classified_intent.confidence) := by
  have hfilter : (skill.confidence_modifiers req.classified_intent.intent_type).filter
      (modifierApplies skill.skill_context now) = [] := by
    rw [List.filter_eq_nil_iff]
    intro m hm
    simp [hmods m hm]
  have heff : (modifierLoop now skill.skill_context t
      (skill.confidence_modifiers req.classified_intent.intent_type)).1 = t := by
    rw [modifierLoop_fst_filter, hfilter]
    rfl
  rw [should_handle_intent_supported skill now req t hsup]
  simp [heff]

/-- Witness for C2: concrete skill whose only modifier's trigger action is
expired, request at the exact threshold boundary `confidence = t = 1/2`. -/
theorem no_applicable_modifier_accept_iff_witness :
    sampleSkillBasic.supported_intents sampleRequestOff.classified_intent.intent_type =
      some (1/2) ∧
    (∀ m ∈ sampleSkillBasic.confidence_modifiers sampleRequestOff.classified_intent.intent_type,
      modifierApplies sampleSkillBasic.skill_context 1000 m = false) ∧
    ((should_handle_intent sampleSkillBasic 1000 sampleRequestOff).2.1 = 1/2 ∧
      ((should_handle_intent sampleSkillBasic 1000 sampleRequestOff).1 = true ↔
        (1/2 : ℚ) ≤ sampleRequestOff.classified_intent.confidence)) :=
  ⟨rfl, by decide,
    no_applicable_modifier_accept_iff sampleSkillBasic 1000 sampleRequestOff (1/2) rfl
      (by decide)⟩

/-! ## Claim C3 -/

/-- C3: on a supported intent type with base threshold `t`, the effective
threshold is the minimum of `t` and the reduced thresholds of exactly those
registered modifiers whose trigger intent has a recent action within their
time window; in particular it never exceeds `t`. -/
theorem effective_threshold_min_of_applicable (skill : SkillState) (now : ℤ)
    (req : IntentRequest) (t : ℚ)
    (hsup : skill.supported_intents req.classified_intent.intent_type = some t) :
    (should_handle_intent skill now req).2.1 =
      (((skill.confidence_modifiers req.classified_intent.intent_type).filter
          (modifierApplies skill.skill_context now)).map
        ConfidenceModifier.reduced_threshold).foldl min t ∧
      (should_handle_intent skill now req).2.1 ≤ t := by
  rw [should_handle_intent_supported skill now req t hsup]
  refine ⟨modifierLoop_fst_filter now _ _ t, ?_⟩
  rw [modifierLoop_fst_filter now _ _ t]
  exact foldl_min_le _ t

/-- Witness for C3: concrete skill whose modifier applies (trigger action 5
seconds old, window 300), lowering the effective threshold from `4/5` to
`min (4/5) (3/10) = 3/10`. -/
theorem effective_threshold_min_of_applicable_witness :
    sampleSkillModified.supported_intents sampleRequestOff.classified_intent.intent_type =
      some (4/5) ∧
    ((should_handle_intent sampleSkillModified 1000 sampleRequestOff).2.1 =
      (((sampleSkillModified.confidence_modifiers
            sampleRequestOff.classified_intent.intent_type).filter
          (modifierApplies sampleSkillModified.skill_context 1000)).map
        ConfidenceModifier.reduced_threshold).foldl min (4/5) ∧
      (should_handle_intent sampleSkillModified 1000 sampleRequestOff).2.1 ≤ 4/5) ∧
    (sampleSkillModified.confidence_modifiers
        sampleRequestOff.classified_intent.intent_type).filter
      (modifierApplies sampleSkillModified.skill_context 1000) =
      [⟨.DEVICE_ON, .DEVICE_OFF, 3/10, 300⟩] :=
  ⟨rfl,
    effective_threshold_min_of_applicable sampleSkillModified 1000 sampleRequestOff (4/5) rfl,
    by norm_num [sampleSkillModified, sampleRequestOff, List.filter, modifierApplies,
      SkillContext.find_recent_action, SkillContext.cleanup_expired_actions,
      IntentType.value]⟩

/-! ## Claim C4 -/

/-- The claim's reading of `find_recent_action`: after pruning, return the
most recent stored action whose name matches and whose AGE IS AT MOST
`within_seconds` (`now - executed_at ≤ within_seconds`). The code instead
compares strictly (`executed_at > now - within_seconds`), so the two differ
exactly when an action's age equals the window. -/
def find_recent_action_claimed (ctx : SkillContext) (now : ℤ) (action : String)
    (within_seconds : ℤ) : Option RecentAction :=
  (ctx.cleanup_expired_actions now).recent_actions.reverse.find? fun a =>
    a.action == action && decide (now - a.executed_at ≤ within_seconds)

/-- A context holding one action of age exactly 300 at `now = 1000`, with a
recency window wide enough that pruning keeps it. -/
def boundaryCtx : SkillContext :=
  ⟨"sample-skill", [⟨"device.on", 700, []⟩], 0, 10, 600, 5⟩

/-- C4 counterexample: the stored action's age is exactly `within_seconds`
({age 300, window 300}), so the claim's "age at most the window" reading
returns it, but the code's strict comparison `executed_at > now - 300`
returns `None`. -/
theorem find_recent_action_boundary_cx :
    (boundaryCtx.find_recent_action 1000 "device.on" (some 300)).2 = none ∧
    find_recent_action_claimed boundaryCtx 1000 "device.on" 300 =
      some ⟨"device.on", 700, []⟩ ∧
    1000 - (700 : ℤ) ≤ 300 := by
  refine ⟨?_, ?_, by decide⟩
  · decide
  · decide

/-- C4 amended: `find_recent_action(name, within_seconds)` prunes expired
entries as a side effect and returns the most recent surviving action whose
name matches and whose age is STRICTLY LESS than `within_seconds`
(`None` when no surviving action matches); in particular any stored matching
action that survives the prune and has age strictly within the window makes
the result non-`None`. -/
theorem find_recent_action_spec (ctx : SkillContext) (now : ℤ) (action : String) (w : ℤ) :
    (ctx.find_recent_action now action (some w)).1 = ctx.cleanup_expired_actions now ∧
    (ctx.find_recent_action now action (some w)).2 =
      ((ctx.cleanup_expired_actions now).recent_actions.filter fun a =>
        a.action == action && decide (now - a.executed_at < w)).getLast? ∧
    (∀ a ∈ ctx.recent_actions, a.action = action → now - a.executed_at < w →
      now - a.executed_at < ctx.recency_window_seconds →
      (ctx.find_recent_action now action (some w)).2 ≠ none) := by
  have hpred :
      (fun (a : RecentAction) => a.action == action && decide (now - w < a.executed_at)) =
        fun a => a.action == action && decide (now - a.executed_at < w) := by
    funext a
    congr 1
    rw [decide_eq_decide]
    omega
  refine ⟨?_, ?_, ?_⟩
  · rw [SkillContext.find_recent_action_eq]
  · rw [SkillContext.find_recent_action_eq]
    simp only [Option.getD_some]
    rw [find?_reverse_eq_getLast?_filter, hpred]
  · intro a ha hname hage hwindow
    rw [SkillContext.find_recent_action_eq]
    simp only [Option.getD_some]
    rw [find?_reverse_eq_getLast?_filter, hpred]
    have hmem : a ∈ (ctx.cleanup_expired_actions now).recent_actions := by
      rw [SkillContext.cleanup_eq_filter]
      refine List.mem_filter.mpr ⟨ha, ?_⟩
      simp only [decide_eq_true_eq]
      omega
    have hmem' : a ∈ (ctx.cleanup_expired_actions now).recent_actions.filter fun a =>
        a.action == action && decide (now - a.executed_at < w) := by
      refine List.mem_filter.mpr ⟨hmem, ?_⟩
      simp [hname, hage]
    rw [Ne, List.getLast?_eq_none_iff]
    exact List.ne_nil_of_mem hmem'

/-- A context with one `"device.on"` action of age 250 at `now = 1050`. -/
def sampleCtxFind : SkillContext :=
  ⟨"sample-skill", [⟨"device.on", 800, []⟩], 0, 10, 300, 5⟩

/-- Witness for the amended C4: the stored action's age (250) is strictly
within both the query window (400) and the recency window (300), so the call
finds it. -/
theorem find_recent_action_spec_witness :
    (sampleCtxFind.find_recent_action 1050 "device.on" (some 400)).2 ≠ none :=
  (find_recent_action_spec sampleCtxFind 1050 "device.on" 400).2.2
    ⟨"device.on", 800, []⟩ (by decide) rfl (by decide) (by decide)

/-! ## Lemmas about the retry loop -/

theorem retryLoop_nil (outcomes : ℕ → PubOutcome) (m : ℕ) :
    retryLoop outcomes m [] = ⟨0, [], .ok false, [false]⟩ := rfl

theorem retryLoop_attempts_pos (outcomes : ℕ → PubOutcome) (m x : ℕ) (l : List ℕ) :
    1 ≤ (retryLoop outcomes m (x :: l)).attempts := by
  cases h : outcomes x <;> simp [retryLoop, h]

/-- Attempt and sleep accounting for the retry loop over any tail
`range' a n` of the attempt indices (`a + n = max_retries + 1`): at most `n`
further attempts are made, and the sleeps performed are exactly the backoff
delays of every attempt except the last one made. -/
theorem retryLoop_range'_sleeps (outcomes : ℕ → PubOutcome) (m : ℕ) :
    ∀ n a, a + n = m + 1 →
      (retryLoop outcomes m (List.range' a n)).attempts ≤ n ∧
      (retryLoop outcomes m (List.range' a n)).sleeps =
        (List.range' a ((retryLoop outcomes m (List.range' a n)).attempts - 1)).map
          backoffDelay := by
  intro n
  induction n with
  | zero => intro a _; exact ⟨Nat.le_refl 0, rfl⟩
  | succ n ih =>
    intro a ha
    have hcons : List.range' a (n + 1) = a :: List.range' (a + 1) n := rfl
    cases h : outcomes a with
    | success => rw [hcons]; simp [retryLoop, h]
    | cancelled => rw [hcons]; simp [retryLoop, h]
    | timeout | mqttError | otherError =>
      have ih' := ih (a + 1) (by omega)
      by_cases ham : a < m
      · have hne : List.range' (a + 1) n ≠ [] := by
          have hn : 0 < n := by omega
          cases n with
          | zero => omega
          | succ k => exact List.cons_ne_nil _ _
        have hpos : 1 ≤ (retryLoop outcomes m (List.range' (a + 1) n)).attempts := by
          cases n with
          | zero => omega
          | succ k => exact retryLoop_attempts_pos outcomes m (a + 1) _
        rw [hcons]
        simp only [retryLoop, h]
        refine ⟨by omega, ?_⟩
        simp only [if_pos ham, List.singleton_append, Nat.add_sub_cancel]
        have hrange : List.range' a (retryLoop outcomes m (List.range' (a + 1) n)).attempts =
            a :: List.range' (a + 1)
              ((retryLoop outcomes m (List.range' (a + 1) n)).attempts - 1) := by
          conv_lhs => rw [show (retryLoop outcomes m (List.range' (a + 1) n)).attempts =
            ((retryLoop outcomes m (List.range' (a + 1) n)).attempts - 1) + 1 by omega]
          rfl
        rw [hrange, List.map_cons, ih'.2]
      · have hn : n = 0 := by omega
        subst hn
        rw [hcons]
        simp [retryLoop, h, ham, retryLoop_nil]

/-- If every remaining attempt fails retryably, the loop exhausts them all,
records one failure metric event and returns `False`. -/
theorem retryLoop_all_fail (outcomes : ℕ → PubOutcome) (m : ℕ) :
    ∀ n a, (∀ j, a ≤ j → j < a + n → retryable (outcomes j)) →
      (retryLoop outcomes m (List.range' a n)).attempts = n ∧
      (retryLoop outcomes m (List.range' a n)).result = .ok false ∧
      (retryLoop outcomes m (List.range' a n)).events = [false] := by
  intro n
  induction n with
  | zero => intro a _; exact ⟨rfl, rfl, rfl⟩
  | succ n ih =>
    intro a hfail
    have hra : retryable (outcomes a) := hfail a (Nat.le_refl a) (by omega)
    have hcons : List.range' a (n + 1) = a :: List.range' (a + 1) n := rfl
    have ih' := ih (a + 1) (fun j h1 h2 => hfail j (by omega) (by omega))
    cases h : outcomes a with
    | success => rw [h] at hra; rcases hra with h' | h' | h' <;> exact absurd h' (by simp)
    | cancelled => rw [h] at hra; rcases hra with h' | h' | h' <;> exact absurd h' (by simp)
    | timeout | mqttError | otherError =>
      rw [hcons]
      simp only [retryLoop, h]
      exact ⟨by rw [ih'.1], ih'.2.1, ih'.2.2⟩

/-- If the first `k` remaining attempts fail retryably and attempt `a + k`
succeeds (with `k` within the remaining budget), the loop returns `True`
after exactly `k + 1` further attempts, recording one success metric
event. -/
theorem retryLoop_first_success (outcomes : ℕ → PubOutcome) (m : ℕ) :
    ∀ k n a, k < n → (∀ j, a ≤ j → j < a + k → retryable (outcomes j)) →
      outcomes (a + k) = .success →
      (retryLoop outcomes m (List.range' a n)).attempts = k + 1 ∧
      (retryLoop outcomes m (List.range' a n)).result = .ok true ∧
      (retryLoop outcomes m (List.range' a n)).events = [true] := by
  intro k
  induction k with
  | zero =>
    intro n a hkn _ hsucc
    cases n with
    | zero => omega
    | succ n' =>
      have hcons : List.range' a (n' + 1) = a :: List.range' (a + 1) n' := rfl
      rw [Nat.add_zero] at hsucc
      rw [hcons]
      simp [retryLoop, hsucc]
  | succ k ih =>
    intro n a hkn hfail hsucc
    have hra : retryable (outcomes a) := hfail a (Nat.le_refl a) (by omega)
    cases n with
    | zero => omega
    | succ n' =>
      have hcons : List.range' a (n' + 1) = a :: List.range' (a + 1) n' := rfl
      have ih' := ih n' (a + 1) (by omega)
        (fun j h1 h2 => hfail j (by omega) (by omega))
        (by rw [show a + 1 + k = a + (k + 1) by omega]; exact hsucc)
      cases h : outcomes a with
      | success => rw [h] at hra; rcases hra with h' | h' | h' <;> exact absurd h' (by simp)
      | cancelled => rw [h] at hra; rcases hra with h' | h' | h' <;> exact absurd h' (by simp)
      | timeout | mqttError | otherError =>
        rw [hcons]
        simp only [retryLoop, h]
        exact ⟨by rw [ih'.1], ih'.2.1, ih'.2.2⟩

/-! ## Claim C5 -/

/-- C5: `_send_response_with_retry` makes at most `max_retries + 1` publish
attempts; it sleeps `min(2^attempt, 10)` seconds between consecutive
attempts and never after the last; it returns `True` on the first attempt
that succeeds (after exactly that many attempts, recording a success
metric); and when all `max_retries + 1` attempts fail with a retryable error
(timeout, MQTT error, or any other exception) it records exactly one failure
metric event and returns `False` instead of raising. -/
theorem send_response_with_retry_spec (outcomes : ℕ → PubOutcome) (m : ℕ) :
    (send_response_with_retry outcomes m).attempts ≤ m + 1 ∧
    (send_response_with_retry outcomes m).sleeps =
      (List.range ((send_response_with_retry outcomes m).attempts - 1)).map backoffDelay ∧
    (∀ k ≤ m, (∀ j < k, retryable (outcomes j)) → outcomes k = .success →
      (send_response_with_retry outcomes m).result = .ok true ∧
      (send_response_with_retry outcomes m).attempts = k + 1 ∧
      (send_response_with_retry outcomes m).events = [true]) ∧
    ((∀ j ≤ m, retryable (outcomes j)) →
      (send_response_with_retry outcomes m).result = .ok false ∧
      (send_response_with_retry outcomes m).attempts = m + 1 ∧
      (send_response_with_retry outcomes m).events = [false]) := by
  have hrange : List.range (m + 1) = List.range' 0 (m + 1) := List.range_eq_range' (m + 1)
  have hsl := retryLoop_range'_sleeps outcomes m (m + 1) 0 (by omega)
  refine ⟨?_, ?_, ?_, ?_⟩
  · unfold send_response_with_retry
    rw [hrange]
    exact hsl.1
  · unfold send_response_with_retry
    rw [hrange, List.range_eq_range']
    exact hsl.2
  · intro k hk hfail hsucc
    have h := retryLoop_first_success outcomes m k (m + 1) 0 (by omega)
      (fun j h1 h2 => hfail j (by omega)) (by rw [Nat.zero_add]; exact hsucc)
    unfold send_response_with_retry
    rw [hrange]
    exact ⟨h.2.1, h.1, h.2.2⟩
  · intro hfail
    have h := retryLoop_all_fail outcomes m (m + 1) 0
      (fun j h1 h2 => hfail j (by omega))
    unfold send_response_with_retry
    rw [hrange]
    exact ⟨h.2.1, h.1, h.2.2⟩

/-- A publish that fails (MQTT error) on attempts 0 and 1 and succeeds from
attempt 2 on. -/
def failTwiceOutcomes : ℕ → PubOutcome := fun j => if j < 2 then .mqttError else .success

/-- A publish that times out on every attempt. -/
def alwaysFailOutcomes : ℕ → PubOutcome := fun _ => .timeout

/-- Witness for C5 at `max_retries = 3` (the default): failing exactly twice
then succeeding yields `True` after exactly 3 attempts; always failing
yields `False` after exactly 4 attempts with a failure metric event. -/
theorem send_response_with_retry_spec_witness :
    ((send_response_with_retry failTwiceOutcomes 3).result = .ok true ∧
      (send_response_with_retry failTwiceOutcomes 3).attempts = 2 + 1 ∧
      (send_response_with_retry failTwiceOutcomes 3).events = [true]) ∧
    ((send_response_with_retry alwaysFailOutcomes 3).result = .ok false ∧
      (send_response_with_retry alwaysFailOutcomes 3).attempts = 3 + 1 ∧
      (send_response_with_retry alwaysFailOutcomes 3).events = [false]) :=
  ⟨(send_response_with_retry_spec failTwiceOutcomes 3).2.2.1 2 (by decide)
      (by decide) (by decide),
    (send_response_with_retry_spec alwaysFailOutcomes 3).2.2.2 (by decide)⟩

/-! ## Lemmas about the task lifecycle manager -/

theorem spawnTasks_state (n : ℕ) :
    ∀ s : TaskRegistry,
      (spawnTasks n s).active_tasks = s.active_tasks ++ List.range' s.task_counter n ∧
      (spawnTasks n s).task_counter = s.task_counter + n ∧
      (spawnTasks n s).tasks_created = s.tasks_created + n ∧
      (spawnTasks n s).tasks_completed = s.tasks_completed ∧
      (spawnTasks n s).tasks_failed = s.tasks_failed := by
  induction n with
  | zero => intro s; simp [spawnTasks]
  | succ n ih =>
    intro s
    have h := ih s.add_task
    have hcons : List.range' s.task_counter (n + 1) =
        s.task_counter :: List.range' (s.task_counter + 1) n := rfl
    simp only [spawnTasks]
    refine ⟨?_, ?_, ?_, ?_, ?_⟩
    · rw [h.1, hcons]
      simp [TaskRegistry.add_task]
    · rw [h.2.1]
      simp only [TaskRegistry.add_task]
      omega
    · rw [h.2.2.1]
      simp only [TaskRegistry.add_task]
      omega
    · rw [h.2.2.2.1]
      rfl
    · rw [h.2.2.2.2]
      rfl

/-- The done callback removes exactly the finished task's registry entry,
whatever the outcome — for a cancelled task the pop has already happened
when `task.exception()` raises. -/
theorem task_completed_active (s : TaskRegistry) (task_id : ℕ) (outcome : TaskOutcome) :
    (s.task_completed task_id outcome).active_tasks = s.active_tasks.erase task_id := by
  unfold TaskRegistry.task_completed
  by_cases hid : task_id ∈ s.active_tasks
  · rw [if_pos hid]
    cases outcome <;> rfl
  · rw [if_neg hid, List.erase_of_not_mem hid]

/-- Metric events recorded by the done callback: one `"completed"` on clean
return, one `"failed"` on a raised error, and NONE on cancellation. -/
theorem task_completed_counters (s : TaskRegistry) (task_id : ℕ) (outcome : TaskOutcome)
    (hid : task_id ∈ s.active_tasks) :
    (s.task_completed task_id outcome).tasks_completed =
      s.tasks_completed + (if outcome = .success then 1 else 0) ∧
    (s.task_completed task_id outcome).tasks_failed =
      s.tasks_failed + (if outcome = .failed then 1 else 0) ∧
    (s.task_completed task_id outcome).tasks_created = s.tasks_created ∧
    (s.task_completed task_id outcome).task_counter = s.task_counter := by
  unfold TaskRegistry.task_completed
  rw [if_pos hid]
  cases outcome <;> simp

/-- Settling a batch that covers exactly the active registry (each spawned id
finished once, in any order) empties the registry; the completed and failed
counters grow by the number of cleanly returning and raising tasks — a
cancelled task bumps neither. -/
theorem settleTasks_perm (comps : List (ℕ × TaskOutcome)) :
    ∀ s : TaskRegistry, s.active_tasks.Nodup →
      (comps.map Prod.fst).Perm s.active_tasks →
      (settleTasks comps s).active_tasks = [] ∧
      (settleTasks comps s).tasks_completed =
        s.tasks_completed + comps.countP (fun c => c.2 = TaskOutcome.success) ∧
      (settleTasks comps s).tasks_failed =
        s.tasks_failed + comps.countP (fun c => c.2 = TaskOutcome.failed) ∧
      (settleTasks comps s).tasks_created = s.tasks_created ∧
      (settleTasks comps s).task_counter = s.task_counter := by
  induction comps with
  | nil =>
    intro s _ hperm
    have hnil : s.active_tasks = [] := List.perm_nil.mp hperm.symm
    exact ⟨hnil, by simp [settleTasks], by simp [settleTasks], rfl, rfl⟩
  | cons c rest ih =>
    intro s hnodup hperm
    have hid : c.1 ∈ s.active_tasks := hperm.mem_iff.mp (List.mem_cons_self c.1 _)
    have herase : s.active_tasks.Perm (c.1 :: s.active_tasks.erase c.1) :=
      List.perm_cons_erase hid
    have hperm' : (rest.map Prod.fst).Perm (s.active_tasks.erase c.1) :=
      (hperm.trans herase).cons_inv
    have hnodup' : (s.active_tasks.erase c.1).Nodup := hnodup.erase c.1
    have hstep : settleTasks (c :: rest) s = settleTasks rest (s.task_completed c.1 c.2) := rfl
    have hactive : (s.task_completed c.1 c.2).active_tasks = s.active_tasks.erase c.1 :=
      task_completed_active s c.1 c.2
    have hctrs := task_completed_counters s c.1 c.2 hid
    have ih' := ih (s.task_completed c.1 c.2) (hactive ▸ hnodup') (hactive ▸ hperm')
    rw [hstep]
    refine ⟨ih'.1, ?_, ?_, ?_, ?_⟩
    · rw [ih'.2.1, hctrs.1, List.countP_cons]
      cases hc : c.2 <;> simp [hc] <;> omega
    · rw [ih'.2.2.1, hctrs.2.1, List.countP_cons]
      cases hc : c.2 <;> simp [hc] <;> omega
    · rw [ih'.2.2.2.1, hctrs.2.2.1]
    · rw [ih'.2.2.2.2, hctrs.2.2.2]

/-- Spawn `N` tasks from a fresh registry, then settle the given batch of
completions. -/
def runTaskScenario (N : ℕ) (comps : List (ℕ × TaskOutcome)) : TaskRegistry :=
  settleTasks comps (spawnTasks N ⟨[], 0, 0, 0, 0⟩)

/-! ## Claim C6 -/

/-- C6 counterexample: two spawned tasks, one returning cleanly and one
CANCELLED, both settle — the registry is emptied, but only ONE metrics
event is recorded in total (the cancelled task records none, because
`task.exception()` raises `CancelledError` out of the callback), not one
per finished task as claimed. -/
theorem task_lifecycle_cancellation_cx :
    (runTaskScenario 2 [(0, TaskOutcome.success),
      (1, TaskOutcome.cancelled)]).get_active_task_count = 0 ∧
    ¬ ((runTaskScenario 2 [(0, TaskOutcome.success),
          (1, TaskOutcome.cancelled)]).tasks_completed +
        (runTaskScenario 2 [(0, TaskOutcome.success),
          (1, TaskOutcome.cancelled)]).tasks_failed = 2) := by
  decide

/-- C6 amended: the completion callback removes the task's registry entry
upon the task finishing regardless of outcome (success, raised error, or
cancellation), and records exactly one metrics event for each task that
returns cleanly (`"completed"`) or raises (`"failed"`) — a CANCELLED task
records no metrics event, since `task.exception()` re-raises
`CancelledError` before either `record_task_event` call. Hence after `N`
spawned tasks of which `k` raise and `c` are cancelled all settle,
`get_active_task_count() = 0` and exactly `k` `"failed"` and `N - k - c`
`"completed"` events have been recorded; no entry is ever removed before
its task completes (`add_task` removes nothing, `_task_completed` removes
exactly the finished id). -/
theorem task_lifecycle_spec (N : ℕ) (comps : List (ℕ × TaskOutcome))
    (hperm : (comps.map Prod.fst).Perm (List.range N)) :
    (runTaskScenario N comps).get_active_task_count = 0 ∧
    (runTaskScenario N comps).tasks_failed =
      comps.countP (fun c => c.2 = TaskOutcome.failed) ∧
    (runTaskScenario N comps).tasks_completed =
      comps.countP (fun c => c.2 = TaskOutcome.success) ∧
    (runTaskScenario N comps).tasks_created = N ∧
    (∀ s : TaskRegistry, s.active_tasks.Sublist s.add_task.active_tasks) ∧
    (∀ (s : TaskRegistry) (id : ℕ) (outcome : TaskOutcome),
      (s.task_completed id outcome).active_tasks = s.active_tasks.erase id) := by
  have hspawn := spawnTasks_state N ⟨[], 0, 0, 0, 0⟩
  have hactive : (spawnTasks N ⟨[], 0, 0, 0, 0⟩).active_tasks = List.range N := by
    rw [hspawn.1, List.nil_append, List.range_eq_range' N]
  have hsettle := settleTasks_perm comps (spawnTasks N ⟨[], 0, 0, 0, 0⟩)
    (by rw [hactive]; exact List.nodup_range N) (by rw [hactive]; exact hperm)
  refine ⟨?_, ?_, ?_, ?_, ?_, ?_⟩
  · unfold runTaskScenario TaskRegistry.get_active_task_count
    rw [hsettle.1]
    rfl
  · unfold runTaskScenario
    rw [hsettle.2.2.1, hspawn.2.2.2.2]
    simp
  · unfold runTaskScenario
    rw [hsettle.2.1, hspawn.2.2.2.1]
    simp
  · unfold runTaskScenario
    rw [hsettle.2.2.2.1, hspawn.2.2.1]
    simp
  · intro s
    simp [TaskRegistry.add_task]
  · intro s id outcome
    exact task_completed_active s id outcome

/-- Completion batch for the witness: task 1 raised, task 0 returned
cleanly, task 2 was cancelled, settled out of spawn order. -/
def sampleComps : List (ℕ × TaskOutcome) :=
  [(1, .failed), (0, .success), (2, .cancelled)]

/-- Witness for the amended C6: three spawned tasks — one raising, one
returning, one cancelled — settled out of order leave an empty registry
with exactly one failed and one completed event (none for the cancelled
task). -/
theorem task_lifecycle_spec_witness :
    (runTaskScenario 3 sampleComps).get_active_task_count = 0 ∧
    (runTaskScenario 3 sampleComps).tasks_failed =
      sampleComps.countP (fun c => c.2 = TaskOutcome.failed) ∧
    (runTaskScenario 3 sampleComps).tasks_completed =
      sampleComps.countP (fun c => c.2 = TaskOutcome.success) ∧
    (runTaskScenario 3 sampleComps).tasks_created = 3 :=
  have h := task_lifecycle_spec 3 sampleComps (by decide)
  ⟨h.1, h.2.1, h.2.2.1, h.2.2.2.1⟩

/-! ## Claim C7 -/

/-- Helper: the unsupported-intent equation of `_should_handle_intent`. -/
theorem should_handle_intent_none (skill : SkillState) (now : ℤ) (req : IntentRequest)
    (h : skill.supported_intents req.classified_intent.intent_type = none) :
    should_handle_intent skill now req = (false, 0, skill.skill_context) := by
  simp only [should_handle_intent]
  rw [h]

theorem modifierLoop_snd (now : ℤ) (ms : List ConfidenceModifier) :
    ∀ (ctx : SkillContext) (eff : ℚ),
      (modifierLoop now ctx eff ms).2 = ctx ∨
      (modifierLoop now ctx eff ms).2 = ctx.cleanup_expired_actions now := by
  induction ms with
  | nil => intro ctx eff; exact Or.inl rfl
  | cons m rest ih =>
    intro ctx eff
    have hfst : (ctx.find_recent_action now m.trigger_intent.value (some m.time_window_seconds)).1 =
        ctx.cleanup_expired_actions now := by
      rw [SkillContext.find_recent_action_eq]
    cases hra : (ctx.find_recent_action now m.trigger_intent.value (some m.time_window_seconds)).2 with
    | some a =>
      right
      have h := ih (ctx.cleanup_expired_actions now) (min eff m.reduced_threshold)
      rw [SkillContext.cleanup_idem] at h
      simp only [modifierLoop, hra, hfst]
      exact h.elim id id
    | none =>
      right
      have h := ih (ctx.cleanup_expired_actions now) eff
      rw [SkillContext.cleanup_idem] at h
      simp only [modifierLoop, hra, hfst]
      exact h.elim id id

/-- The decision's returned context only ever prunes, never adds. -/
theorem should_handle_ctx_sublist (skill : SkillState) (now : ℤ) (req : IntentRequest) :
    (should_handle_intent skill now req).2.2.recent_actions.Sublist
      skill.skill_context.recent_actions := by
  cases hsup : skill.supported_intents req.classified_intent.intent_type with
  | none =>
    rw [should_handle_intent_none skill now req hsup]
  | some t =>
    rw [should_handle_intent_supported skill now req t hsup]
    rcases modifierLoop_snd now
      (skill.confidence_modifiers req.classified_intent.intent_type) skill.skill_context t with
      h | h
    · dsimp only
      rw [h]
    · dsimp only
      rw [h]
      exact SkillContext.cleanup_sublist skill.skill_context now

/-- The decision never changes the context's capacity field. -/
theorem should_handle_ctx_max (skill : SkillState) (now : ℤ) (req : IntentRequest) :
    (should_handle_intent skill now req).2.2.max_recent_actions =
      skill.skill_context.max_recent_actions := by
  cases hsup : skill.supported_intents req.classified_intent.intent_type with
  | none => rw [should_handle_intent_none skill now req hsup]
  | some t =>
    rw [should_handle_intent_supported skill now req t hsup]
    rcases modifierLoop_snd now
      (skill.confidence_modifiers req.classified_intent.intent_type) skill.skill_context t with
      h | h
    · dsimp only
      rw [h]
    · dsimp only
      rw [h, SkillContext.cleanup_eq_filter]

/-- When the capacity is positive, the action just added is the most recent
entry of the context. -/
theorem add_action_getLast (ctx : SkillContext) (now : ℤ) (action : String)
    (entities : List (String × List Val)) (hmax : 1 ≤ ctx.max_recent_actions) :
    (ctx.add_action now action entities).recent_actions.getLast? =
      some ⟨action, now, entities⟩ := by
  simp only [SkillContext.add_action]
  by_cases h : ctx.max_recent_actions <
      (ctx.recent_actions ++ [RecentAction.mk action now entities]).length
  · rw [if_pos h]
    unfold pySliceLast
    rw [if_neg (by omega)]
    have hlen : (ctx.recent_actions ++ [RecentAction.mk action now entities]).length -
        ctx.max_recent_actions ≤ ctx.recent_actions.length := by
      simp only [List.length_append, List.length_singleton]
      omega
    rw [List.drop_append_of_le_length hlen]
    exact List.getLast?_concat _
  · rw [if_neg h]
    exact List.getLast?_concat _

/-- C7: `handle_client_request_message` records an action into the
`SkillContext` only after `process_request` returns successfully — the
recorded action is `intent_type.value` with the role-wise flattened
`normalized_value`s of the classified entities — while a rejected request,
or one whose processing raises, records nothing (the context can only have
been pruned). -/
theorem handle_request_records_action (skill : SkillState) (now : ℤ) (req : IntentRequest)
    (process_succeeds : Bool) :
    ((should_handle_intent skill now req).1 = false →
      handle_client_request_message skill now req process_succeeds =
        ((should_handle_intent skill now req).2.2, false) ∧
      (handle_client_request_message skill now req process_succeeds).1.recent_actions.Sublist
        skill.skill_context.recent_actions) ∧
    ((should_handle_intent skill now req).1 = true → process_succeeds = false →
      handle_client_request_message skill now req process_succeeds =
        ((should_handle_intent skill now req).2.2, false) ∧
      (handle_client_request_message skill now req process_succeeds).1.recent_actions.Sublist
        skill.skill_context.recent_actions) ∧
    ((should_handle_intent skill now req).1 = true → process_succeeds = true →
      handle_client_request_message skill now req process_succeeds =
        ((should_handle_intent skill now req).2.2.add_action now
          req.classified_intent.intent_type.value
          (flattenEntities req.classified_intent.entities), true) ∧
      (1 ≤ skill.skill_context.max_recent_actions →
        (handle_client_request_message skill now req
            process_succeeds).1.recent_actions.getLast? =
          some ⟨req.classified_intent.intent_type.value, now,
            flattenEntities req.classified_intent.entities⟩)) := by
  refine ⟨?_, ?_, ?_⟩
  · intro hsh
    have heq : handle_client_request_message skill now req process_succeeds =
        ((should_handle_intent skill now req).2.2, false) := by
      simp only [handle_client_request_message]
      rw [hsh]
      simp
    exact ⟨heq, by rw [heq]; exact should_handle_ctx_sublist skill now req⟩
  · intro hsh hps
    have heq : handle_client_request_message skill now req process_succeeds =
        ((should_handle_intent skill now req).2.2, false) := by
      simp only [handle_client_request_message]
      rw [hsh, hps]
      simp
    exact ⟨heq, by rw [heq]; exact should_handle_ctx_sublist skill now req⟩
  · intro hsh hps
    have heq : handle_client_request_message skill now req process_succeeds =
        ((should_handle_intent skill now req).2.2.add_action now
          req.classified_intent.intent_type.value
          (flattenEntities req.classified_intent.entities), true) := by
      simp only [handle_client_request_message]
      rw [hsh, hps]
      simp
    refine ⟨heq, fun hmax => ?_⟩
    rw [heq]
    exact add_action_getLast _ now _ _ (by rw [should_handle_ctx_max]; exact hmax)

/-- A skill supporting `DEVICE_ON` at threshold 1, no modifiers, empty
context. -/
def sampleSkillProcess : SkillState :=
  { supported_intents := fun it => if it = IntentType.DEVICE_ON then some 1 else none
    confidence_modifiers := fun _ => []
    skill_context := ⟨"sample-skill", [], 0, 10, 300, 5⟩ }

/-- A `DEVICE_ON` request at confidence 1 with one device entity. -/
def sampleRequestOn : IntentRequest :=
  ⟨8, ⟨.DEVICE_ON, 1, [("devices", [⟨.DEVICE, "the lights", "lights", 1⟩])],
    "turn on the lights", 999⟩, sampleClientRequest⟩

/-- Witness for C7: the accepted and successfully processed request leaves a
`RecentAction` with action `"device.on"` and the flattened entity values as
the most recent context entry. -/
theorem handle_request_records_action_witness :
    (should_handle_intent sampleSkillProcess 1000 sampleRequestOn).1 = true ∧
    (handle_client_request_message sampleSkillProcess 1000 sampleRequestOn
        true).1.recent_actions.getLast? =
      some ⟨"device.on", 1000, [("devices", ["lights"])]⟩ :=
  ⟨rfl,
    ((handle_request_records_action sampleSkillProcess 1000 sampleRequestOn true).2.2
      rfl rfl).2 (by decide)⟩

/-! ## Claim C9 -/

/-- C9: `publish_with_alert` raises `ValueError` exactly when
`broadcast=False` and `client_request=None`; otherwise it delegates to the
broadcast path (when `broadcast=True`) or the targeted-send path (when a
client request is given), substituting the skill's `default_alert` for a
missing alert. -/
theorem publish_with_alert_spec (default_alert : Alert) (response_text : String)
    (client_request : Option ClientRequest) (broadcast : Bool) (alert : Option Alert) :
    ((∃ msg, publish_with_alert default_alert response_text client_request broadcast alert =
        .error msg) ↔ (broadcast = false ∧ client_request = none)) ∧
    (broadcast = true →
      publish_with_alert default_alert response_text client_request broadcast alert =
        .ok (.broadcast response_text (alert.getD default_alert))) ∧
    (∀ cr, broadcast = false → client_request = some cr →
      publish_with_alert default_alert response_text client_request broadcast alert =
        .ok (.direct response_text cr (alert.getD default_alert))) ∧
    (broadcast = false → client_request = none →
      publish_with_alert default_alert response_text client_request broadcast alert =
        .error "client_request must be provided if broadcast is False.") := by
  refine ⟨?_, ?_, ?_, ?_⟩
  · constructor
    · rintro ⟨msg, hmsg⟩
      cases broadcast
      · cases client_request with
        | none => exact ⟨rfl, rfl⟩
        | some cr => exact absurd hmsg (by simp [publish_with_alert])
      · exact absurd hmsg (by simp [publish_with_alert])
    · rintro ⟨hb, hcr⟩
      subst hb
      subst hcr
      exact ⟨_, rfl⟩
  · intro hb
    subst hb
    rfl
  · intro cr hb hcr
    subst hb
    subst hcr
    rfl
  · intro hb hcr
    subst hb
    subst hcr
    rfl

/-- Witness for C9: the error case (no broadcast, no client request) and the
two delegation cases at concrete inputs. -/
theorem publish_with_alert_spec_witness :
    publish_with_alert { play_before := true } "done" none false none =
      .error "client_request must be provided if broadcast is False." ∧
    publish_with_alert { play_before := true } "done" none true none =
      .ok (.broadcast "done" { play_before := true }) ∧
    publish_with_alert { play_before := true } "done" (some sampleClientRequest) false
        (some { sound := "chime" }) =
      .ok (.direct "done" sampleClientRequest { sound := "chime" }) :=
  ⟨(publish_with_alert_spec { play_before := true } "done" none false none).2.2.2 rfl rfl,
    (publish_with_alert_spec { play_before := true } "done" none true none).2.1 rfl,
    (publish_with_alert_spec { play_before := true } "done" (some sampleClientRequest) false
      (some { sound := "chime" })).2.2.1 sampleClientRequest rfl rfl⟩

/-! ## Claim C8 -/

/-- Refreshing an existing key removes exactly that key's single entry
before re-inserting it. -/
theorem length_filter_ne_of_mem_keys (k : ℕ) :
    ∀ l : List (ℕ × ℕ), (l.map Prod.fst).Nodup → k ∈ l.map Prod.fst →
      (l.filter fun p => p.1 ≠ k).length + 1 = l.length := by
  intro l
  induction l with
  | nil => intro _ hmem; cases hmem
  | cons p l ih =>
    intro hnodup hmem
    rw [List.map_cons, List.nodup_cons] at hnodup
    by_cases hk : p.1 = k
    · have hfilter : l.filter (fun p => p.1 ≠ k) = l := by
        rw [List.filter_eq_self]
        intro q hq
        simp only [ne_eq, decide_not, Bool.not_eq_true', decide_eq_false_iff_not]
        intro hqk
        exact hnodup.1 (hk ▸ hqk ▸ List.mem_map_of_mem Prod.fst hq)
      rw [List.filter_cons_of_neg (by simp [hk])]
      rw [hfilter]
      rfl
    · have hmem' : k ∈ l.map Prod.fst := by
        rcases List.mem_cons.mp hmem with h | h
        · exact absurd h.symm hk
        · exact h
      rw [List.filter_cons_of_pos (by simp [hk])]
      simp only [List.length_cons]
      rw [ih hnodup.2 hmem']

theorem setAll_append_singleton (c : BoundedCache) (l : List (ℕ × ℕ)) (x : ℕ × ℕ) :
    c.setAll (l ++ [x]) = (c.setAll l).set x.1 x.2 := by
  unfold BoundedCache.setAll
  rw [List.foldl_append]
  rfl

/-- Folding distinct fresh keys into an initially empty cache of positive
capacity keeps exactly the most recent `capacity` keys, in recency order. -/
theorem setAll_empty_keys (cap : ℕ) (hcap : 1 ≤ cap) (kvs : List (ℕ × ℕ))
    (hnodup : (kvs.map Prod.fst).Nodup) :
    ((BoundedCache.mk cap []).setAll kvs).capacity = cap ∧
    ((BoundedCache.mk cap []).setAll kvs).keys =
      (kvs.map Prod.fst).drop (kvs.length - cap) ∧
    ((BoundedCache.mk cap []).setAll kvs).entries.length = min cap kvs.length := by
  induction kvs using List.reverseRecOn with
  | nil =>
    refine ⟨rfl, ?_, by simp [BoundedCache.setAll, BoundedCache.keys]⟩
    simp [BoundedCache.setAll, BoundedCache.keys]
  | append_singleton l x ih =>
    rw [List.map_append] at hnodup
    rw [List.nodup_append] at hnodup
    have hxfresh : x.1 ∉ l.map Prod.fst := fun hm =>
      hnodup.2.2 hm (by simp)
    have ih' := ih hnodup.1
    have hkeys : ((BoundedCache.mk cap []).setAll l).keys =
        (l.map Prod.fst).drop (l.length - cap) := ih'.2.1
    have hxnot : x.1 ∉ ((BoundedCache.mk cap []).setAll l).entries.map Prod.fst := by
      intro hm
      have hm' : x.1 ∈ ((BoundedCache.mk cap []).setAll l).keys := hm
      rw [hkeys] at hm'
      exact hxfresh ((List.drop_sublist _ _).subset hm')
    rw [setAll_append_singleton]
    unfold BoundedCache.set
    rw [if_neg hxnot, ih'.1]
    by_cases hlen : ((BoundedCache.mk cap []).setAll l).entries.length = cap
    · have hcaple : cap ≤ l.length := by
        have := ih'.2.2
        omega
      rw [if_pos hlen]
      refine ⟨rfl, ?_, ?_⟩
      · show (((BoundedCache.mk cap []).setAll l).entries.tail ++ [(x.1, x.2)]).map Prod.fst =
          ((l ++ [x]).map Prod.fst).drop ((l ++ [x]).length - cap)
        rw [List.map_append, List.map_tail]
        have hk2 : (((BoundedCache.mk cap []).setAll l).entries.map Prod.fst) =
            ((BoundedCache.mk cap []).setAll l).keys := rfl
        rw [hk2, hkeys, List.tail_drop, List.map_append, List.length_append]
        have harith : (l.length + [x].length) - cap = (l.length - cap) + 1 := by
          simp only [List.length_singleton]
          omega
        rw [harith, List.drop_append_of_le_length (by simp; omega)]
      · show (((BoundedCache.mk cap []).setAll l).entries.tail ++ [(x.1, x.2)]).length =
          min cap (l ++ [x]).length
        rw [List.length_append, List.length_tail, hlen]
        simp only [List.length_append, List.length_singleton]
        omega
    · have hltcap : l.length < cap := by
        have := ih'.2.2
        omega
      rw [if_neg hlen]
      refine ⟨rfl, ?_, ?_⟩
      · show ((((BoundedCache.mk cap []).setAll l).entries ++ [(x.1, x.2)]).map Prod.fst) =
          ((l ++ [x]).map Prod.fst).drop ((l ++ [x]).length - cap)
        rw [List.map_append]
        have hk2 : (((BoundedCache.mk cap []).setAll l).entries.map Prod.fst) =
            ((BoundedCache.mk cap []).setAll l).keys := rfl
        rw [hk2, hkeys, List.map_append, List.length_append]
        have hz1 : l.length - cap = 0 := by omega
        have hz2 : (l.length + [x].length) - cap = 0 := by simp; omega
        rw [hz1, hz2, List.drop_zero, List.drop_zero]
      · show (((BoundedCache.mk cap []).setAll l).entries ++ [(x.1, x.2)]).length =
          min cap (l ++ [x]).length
        rw [List.length_append]
        simp only [List.length_append, List.length_singleton]
        omega

/-- C8: `set(key, value)` refreshes an existing key in place (same size, new
value, most-recently-used position), evicts exactly the least-recently-used
entry when a new key arrives at capacity, and hence inserting
`capacity + j` distinct keys into an empty cache of positive capacity leaves
exactly `capacity` entries — the `capacity` most recently touched keys. -/
theorem bounded_cache_set_spec :
    (∀ (c : BoundedCache) (k v : ℕ), (c.entries.map Prod.fst).Nodup →
      k ∈ c.entries.map Prod.fst →
      (c.set k v).entries.length = c.entries.length ∧
      (c.set k v).entries.getLast? = some (k, v)) ∧
    (∀ (c : BoundedCache) (k v : ℕ), k ∉ c.entries.map Prod.fst →
      c.entries.length = c.capacity →
      (c.set k v).entries = c.entries.tail ++ [(k, v)]) ∧
    (∀ (cap j : ℕ) (kvs : List (ℕ × ℕ)), 1 ≤ cap → (kvs.map Prod.fst).Nodup →
      kvs.length = cap + j →
      ((BoundedCache.mk cap []).setAll kvs).entries.length = cap ∧
      ((BoundedCache.mk cap []).setAll kvs).keys = (kvs.map Prod.fst).drop j) := by
  refine ⟨?_, ?_, ?_⟩
  · intro c k v hnodup hmem
    unfold BoundedCache.set
    rw [if_pos hmem]
    constructor
    · show ((c.entries.filter fun p => p.1 ≠ k) ++ [(k, v)]).length = c.entries.length
      rw [List.length_append, List.length_singleton]
      exact length_filter_ne_of_mem_keys k c.entries hnodup hmem
    · exact List.getLast?_concat _
  · intro c k v hnotmem hlen
    unfold BoundedCache.set
    rw [if_neg hnotmem, if_pos hlen]
  · intro cap j kvs hcap hnodup hlen
    have h := setAll_empty_keys cap hcap kvs hnodup
    refine ⟨?_, ?_⟩
    · rw [h.2.2, hlen]
      omega
    · rw [h.2.1, hlen]
      congr 1
      omega

/-- Witness for C8: capacity 2, three distinct keys inserted into an empty
cache keep exactly keys 2 and 3; re-setting key 1 of a full cache keeps the
size at 2 and moves (1, 11) to the most-recently-used end. -/
theorem bounded_cache_set_spec_witness :
    (((BoundedCache.mk 2 []).setAll [(1, 10), (2, 20), (3, 30)]).entries.length = 2 ∧
      ((BoundedCache.mk 2 []).setAll [(1, 10), (2, 20), (3, 30)]).keys =
        ([(1, 10), (2, 20), (3, 30)].map Prod.fst).drop 1) ∧
    ((BoundedCache.mk 2 [(1, 10), (2, 20)]).set 1 11).entries.length =
      (BoundedCache.mk 2 [(1, 10), (2, 20)]).entries.length ∧
    ((BoundedCache.mk 2 [(1, 10), (2, 20)]).set 1 11).entries.getLast? = some (1, 11) :=
  ⟨bounded_cache_set_spec.2.2 2 1 [(1, 10), (2, 20), (3, 30)] (by decide) (by decide) rfl,
    bounded_cache_set_spec.1 (BoundedCache.mk 2 [(1, 10), (2, 20)]) 1 11 (by decide)
      (by decide)⟩

/-! ## Claim C10 -/

/-- One mutating `SkillContext` operation (the non-mutating readers
`get_last_action` and `get_recent_entities` do not touch the state). -/
inductive CtxStep : SkillContext → SkillContext → Prop where
  | add (c : SkillContext) (now : ℤ) (action : String)
      (entities : List (String × List Val)) :
      CtxStep c (c.add_action now action entities)
  | cleanup (c : SkillContext) (now : ℤ) : CtxStep c (c.cleanup_expired_actions now)
  | find (c : SkillContext) (now : ℤ) (action : String) (w : Option ℤ) :
      CtxStep c (c.find_recent_action now action w).1
  | intent (c : SkillContext) (now : ℤ) (intent_str : String) :
      CtxStep c (c.has_recent_intent now intent_str).1
  | activity (c : SkillContext) (now : ℤ) : CtxStep c (c.has_recent_activity now).1

/-- States reachable from `c0` through `SkillContext` operations. -/
inductive CtxReachable (c0 : SkillContext) : SkillContext → Prop where
  | refl : CtxReachable c0 c0
  | step {c c' : SkillContext} : CtxReachable c0 c → CtxStep c c' → CtxReachable c0 c'

/-- With positive capacity, `add_action` re-establishes the length bound
unconditionally. -/
theorem add_action_length_le (ctx : SkillContext) (now : ℤ) (action : String)
    (entities : List (String × List Val)) (hmax : 1 ≤ ctx.max_recent_actions) :
    (ctx.add_action now action entities).recent_actions.length ≤
      ctx.max_recent_actions := by
  simp only [SkillContext.add_action]
  by_cases h : ctx.max_recent_actions <
      (ctx.recent_actions ++ [RecentAction.mk action now entities]).length
  · rw [if_pos h]
    unfold pySliceLast
    rw [if_neg (by omega)]
    rw [List.length_drop]
    omega
  · rw [if_neg h]
    omega

/-- Every mutating operation keeps the capacity field and, given positive
capacity, preserves the length bound. -/
theorem ctxStep_preserved {c c' : SkillContext} (h : CtxStep c c')
    (hmax : 1 ≤ c.max_recent_actions)
    (hlen : c.recent_actions.length ≤ c.max_recent_actions) :
    c'.max_recent_actions = c.max_recent_actions ∧
    c'.recent_actions.length ≤ c'.max_recent_actions := by
  have hclean : ∀ now : ℤ,
      (c.cleanup_expired_actions now).max_recent_actions = c.max_recent_actions ∧
      (c.cleanup_expired_actions now).recent_actions.length ≤
        (c.cleanup_expired_actions now).max_recent_actions := by
    intro now
    rw [SkillContext.cleanup_eq_filter]
    exact ⟨rfl, le_trans (List.length_filter_le _ _) hlen⟩
  cases h with
  | add now action entities =>
    exact ⟨rfl, by
      have := add_action_length_le c now action entities hmax
      have hm : (c.add_action now action entities).max_recent_actions =
          c.max_recent_actions := rfl
      rw [hm]
      exact this⟩
  | cleanup now => exact hclean now
  | find now action w =>
    rw [SkillContext.find_recent_action_eq]
    exact hclean now
  | intent now intent_str =>
    simp only [SkillContext.has_recent_intent]
    rw [SkillContext.find_recent_action_eq]
    exact hclean now
  | activity now =>
    simp only [SkillContext.has_recent_activity]
    exact hclean now

/-- A context with capacity zero, on which Python's trim slice
`recent_actions[-0:]` keeps the whole list. -/
def zeroCapCtx : SkillContext := ⟨"sample-skill", [], 0, 0, 300, 5⟩

/-- C10 counterexample: with `max_recent_actions = 0`, `add_action` does NOT
trim — the Python slice `[-0:]` is the whole list — so the new length 1
exceeds the bound 0 and the claimed invariant fails on this constructible
context. -/
theorem skill_context_bound_cx :
    ¬ ((zeroCapCtx.add_action 0 "device.on" []).recent_actions.length ≤
      (zeroCapCtx.add_action 0 "device.on" []).max_recent_actions) := by
  decide

/-- C10 amended: PROVIDED `max_recent_actions ≥ 1`, `add_action` trims back
to the bound after appending, every other operation only removes entries or
leaves the list unchanged, and from an empty context the invariant
`len(recent_actions) ≤ max_recent_actions` holds in every reachable
state. -/
theorem skill_context_bound_invariant :
    (∀ (ctx : SkillContext) (now : ℤ) (action : String)
        (entities : List (String × List Val)), 1 ≤ ctx.max_recent_actions →
      (ctx.add_action now action entities).recent_actions.length ≤
        ctx.max_recent_actions) ∧
    (∀ c c' : SkillContext, CtxStep c c' → 1 ≤ c.max_recent_actions →
      c.recent_actions.length ≤ c.max_recent_actions →
      c'.max_recent_actions = c.max_recent_actions ∧
      c'.recent_actions.length ≤ c'.max_recent_actions) ∧
    (∀ c0 : SkillContext, c0.recent_actions = [] → 1 ≤ c0.max_recent_actions →
      ∀ c, CtxReachable c0 c →
        c.recent_actions.length ≤ c.max_recent_actions) := by
  refine ⟨add_action_length_le, fun c c' h hmax hlen => ctxStep_preserved h hmax hlen, ?_⟩
  intro c0 hempty hmax c hr
  have hinv : c.max_recent_actions = c0.max_recent_actions ∧
      c.recent_actions.length ≤ c.max_recent_actions := by
    induction hr with
    | refl => exact ⟨rfl, by rw [hempty]; exact Nat.zero_le _⟩
    | step hr' hs ih =>
      have hp := ctxStep_preserved hs (ih.1 ▸ hmax) ih.2
      exact ⟨hp.1.trans ih.1, hp.2⟩
  exact hinv.2

/-- An empty context with capacity 2 for the witness. -/
def boundWitnessCtx : SkillContext := ⟨"sample-skill", [], 0, 2, 300, 5⟩

/-- Witness for the amended C10: two `add_action` steps from an empty
capacity-2 context stay within the bound. -/
theorem skill_context_bound_invariant_witness :
    ((boundWitnessCtx.add_action 5 "device.on" []).add_action 7
        "device.off" []).recent_actions.length ≤
      ((boundWitnessCtx.add_action 5 "device.on" []).add_action 7
        "device.off" []).max_recent_actions :=
  skill_context_bound_invariant.2.2 boundWitnessCtx rfl (by decide) _
    (CtxReachable.step
      (CtxReachable.step CtxReachable.refl
        (CtxStep.add boundWitnessCtx 5 "device.on" []))
      (CtxStep.add _ 7 "device.off" []))
